import Mathlib

/-!
Verification development for the dotfiles configuration tool
(`config_parser.py`).  The Python source is shallowly embedded: pure text
processing works on `List Char`, file contents and paths in the sync engine
are `String`s, filesystem state is explicit association lists, the external
substitution step and the interactive prompts become explicit inputs.
Machine behaviour that the claims do not touch (metadata preservation,
absolute-path normalisation, the actual subprocess) is abstracted and noted
at each definition.
-/

namespace DotSync

/-! ## Python text primitives -/

/-- ASCII whitespace as stripped by Python `str.strip()` and matched by the
regex class `\s` (space, tab, newline, carriage return, vertical tab,
form feed). -/
def pyWS (c : Char) : Bool :=
  c = ' ' || c = '\t' || c = '\n' || c = '\r' || c = Char.ofNat 11 || c = Char.ofNat 12

/-- Python `str.strip()`: drop whitespace from both ends. -/
def pyStrip (l : List Char) : List Char :=
  ((l.dropWhile pyWS).reverse.dropWhile pyWS).reverse

/-- Whether `p` is a prefix of `l` (Python `str.startswith`). -/
def startsWithL : List Char → List Char → Bool
  | [], _ => true
  | _ :: _, [] => false
  | p :: ps, c :: cs => p = c && startsWithL ps cs

/-- Whether `pat` occurs as a contiguous substring of `l`
(Python `pat in l`). -/
def occursSub (pat : List Char) : List Char → Bool
  | [] => startsWithL pat []
  | c :: t => startsWithL pat (c :: t) || occursSub pat t

/-- Substring occurrence as a proposition. -/
def occursIn (pat l : List Char) : Prop :=
  ∃ s t, l = s ++ pat ++ t

/-- Python `content.split(sep)` for a one-character separator: always at
least one (possibly empty) piece. -/
def splitOnChar (sep : Char) : List Char → List (List Char)
  | [] => [[]]
  | c :: t =>
    if c = sep then [] :: splitOnChar sep t
    else
      match splitOnChar sep t with
      | h :: r => (c :: h) :: r
      | [] => [[c]]

/-- First character of a variable / env key: `[A-Za-z_]`. -/
def identStart (c : Char) : Bool :=
  (65 ≤ c.toNat && c.toNat ≤ 90) || (97 ≤ c.toNat && c.toNat ≤ 122) || c = '_'

/-- Later characters of a variable / env key: `[A-Za-z0-9_]`. -/
def identChar (c : Char) : Bool :=
  identStart c || (48 ≤ c.toNat && c.toNat ≤ 57)

/-- A whole name matching `[A-Za-z_][A-Za-z0-9_]*`. -/
def isIdentName (n : List Char) : Bool :=
  match n with
  | [] => false
  | c :: t => identStart c && t.all identChar

/-! ## Template variable detection (`detect_template_variables`,
config_parser.py lines 171-196)

The Python code runs `re.findall` with the pattern
`\$\{([A-Za-z_][A-Za-z0-9_]*)\}` over the decoded file content.  The scanner
below reproduces `re.findall`'s left-to-right, non-overlapping scan: at each
position it tries to match the whole pattern and on success resumes after
the match. -/

/-- The literal text of a `${NAME}` placeholder. -/
def varPat (n : List Char) : List Char :=
  '$' :: '{' :: (n ++ ['}'])

/-- Try to match `\$\{[A-Za-z_][A-Za-z0-9_]*\}` at the head of the input;
on success return the captured name and the input after the match. -/
def tryVar : List Char → Option (List Char × List Char)
  | a :: b :: c :: rest =>
    if a = '$' ∧ b = '{' ∧ identStart c = true ∧
        (rest.dropWhile identChar).head? = some '}' then
      some (c :: rest.takeWhile identChar, (rest.dropWhile identChar).tail)
    else none
  | _ => none

/-- Left-to-right non-overlapping scan, fuelled by the input length (each
step consumes at least one character). -/
def scanAux : Nat → List Char → List (List Char)
  | 0, _ => []
  | fuel + 1, cs =>
    match tryVar cs with
    | some (n, rest) => n :: scanAux fuel rest
    | none =>
      match cs with
      | [] => []
      | _ :: t => scanAux fuel t

/-- All placeholder names found in the content, in scan order
(`re.findall` returns the captures in this order; Python then builds a
set of them). -/
def scanVars (cs : List Char) : List (List Char) :=
  scanAux cs.length cs

/-- `detect_template_variables`: `none` models a file whose bytes do not
decode as UTF-8 (or cannot be read), which yields the empty set
(lines 184-189). -/
def detect_template_variables (file : Option (List Char)) : List (List Char) :=
  match file with
  | none => []
  | some cs => scanVars cs

/-! ## Environment file validation (`validate_env_file`,
config_parser.py lines 199-259) -/

/-- The regex class `[;&|`$(){}]` of command-injection characters (the
backtick is written numerically). -/
def injChar (c : Char) : Bool :=
  c = ';' || c = '&' || c = '|' || c = Char.ofNat 96 || c = '$' ||
  c = '(' || c = ')' || c = '{' || c = '}'

/-- Run a prefix matcher at every suffix of the input: `re.search`. -/
def hasMatch (p : List Char → Bool) : List Char → Bool
  | [] => p []
  | c :: t => p (c :: t) || hasMatch p t

/-- Prefix matcher for `\$\(`. -/
def pDollarParen (l : List Char) : Bool :=
  startsWithL ['$', '('] l

/-- Prefix matcher for `eval\s`. -/
def pEvalWs (l : List Char) : Bool :=
  match l with
  | 'e' :: 'v' :: 'a' :: 'l' :: c :: _ => pyWS c
  | _ => false

/-- Prefix matcher for `exec\s`. -/
def pExecWs (l : List Char) : Bool :=
  match l with
  | 'e' :: 'x' :: 'e' :: 'c' :: c :: _ => pyWS c
  | _ => false

/-- Prefix matcher for `\|\s*sh` (a pipe, optional whitespace, then `sh`;
since `s` is not whitespace the starred class must take the whole
whitespace run). -/
def pPipeSh (l : List Char) : Bool :=
  match l with
  | '|' :: rest => startsWithL ['s', 'h'] (rest.dropWhile pyWS)
  | _ => false

/-- Prefix matcher for `>\s*/dev/`. -/
def pDevWrite (l : List Char) : Bool :=
  match l with
  | '>' :: rest => startsWithL ['/', 'd', 'e', 'v', '/'] (rest.dropWhile pyWS)
  | _ => false

/-- Prefix matcher for `rm\s+-rf` (at least one whitespace character). -/
def pRmRf (l : List Char) : Bool :=
  match l with
  | 'r' :: 'm' :: c :: rest => pyWS c && startsWithL ['-', 'r', 'f'] ((c :: rest).dropWhile pyWS)
  | _ => false

/-- One of the `dangerous_patterns` matches somewhere in the content
(lines 217-233). -/
def dangerousContent (l : List Char) : Bool :=
  l.any injChar || hasMatch pDollarParen l || l.contains (Char.ofNat 96) ||
  hasMatch pEvalWs l || hasMatch pExecWs l || hasMatch pPipeSh l ||
  hasMatch pDevWrite l || hasMatch pRmRf l

/-- The stripped, non-blank, non-comment lines of the content
(lines 236-237). -/
def envLines (content : List Char) : List (List Char) :=
  ((splitOnChar '\n' content).map pyStrip).filter
    (fun l => !l.isEmpty && !startsWithL ['#'] l)

/-- Regex `^[A-Za-z_][A-Za-z0-9_]*=.*$` against one stripped line. -/
def lineIsKV (l : List Char) : Bool :=
  match l with
  | c :: rest =>
    identStart c &&
      (match rest.dropWhile identChar with
       | '=' :: _ => true
       | _ => false)
  | [] => false

/-- Regex `^export\s+[A-Za-z_][A-Za-z0-9_]*=.*$` against one stripped
line. -/
def lineIsExport (l : List Char) : Bool :=
  match l with
  | 'e' :: 'x' :: 'p' :: 'o' :: 'r' :: 't' :: c :: rest =>
    pyWS c &&
      (match (c :: rest).dropWhile pyWS with
       | d :: r2 =>
         identStart d &&
           (match r2.dropWhile identChar with
            | '=' :: _ => true
            | _ => false)
       | [] => false)
  | _ => false

/-- How many of the lines are `KEY=VALUE` or `export KEY=VALUE`
(lines 239-246). -/
def countValid (ls : List (List Char)) : Nat :=
  ls.countP (fun l => lineIsKV l || lineIsExport l)

/-- Validation of the content of an existing regular file: reject on any
dangerous pattern, then require at least 80 percent valid lines (the
float comparison `valid / len < 0.8` is modelled exactly as
`5 * valid < 4 * len`).  An empty line list skips the ratio test
(line 249 tests `lines and ...`). -/
def validate_env_content (content : List Char) : Bool :=
  if dangerousContent content then false
  else
    let ls := envLines content
    if !ls.isEmpty && 5 * countValid ls < 4 * ls.length then false
    else true

/-- `validate_env_file`: a missing path or a non-regular file is `none` and
is rejected (lines 212-213); otherwise the content is validated. -/
def validate_env_file (file : Option (List Char)) : Bool :=
  match file with
  | none => false
  | some c => validate_env_content c

/-! ## Mapping file parsing (`DotfilesConfig.parse_config`,
config_parser.py lines 51-119)

The parser walks the file line by line, keeping three pieces of state:
`dotfiles` (regular repo paths in order), `file_map` (repo path to
destination, dict update semantics) and `custom_map` (destination to
overlay source).  A fatal safety check raises `ValueError`, modelled as
`Except.error`; the caller (`main`) never uses a config whose parse
raised. -/

/-- Parsed configuration state. -/
structure Config where
  dotfiles : List (List Char)
  file_map : List (List Char × List Char)
  custom_map : List (List Char × List Char)
deriving DecidableEq

/-- The empty starting configuration. -/
def emptyConfig : Config := ⟨[], [], []⟩

instance : DecidableEq (Except Unit Config) := fun a b =>
  match a, b with
  | .ok x, .ok y => if h : x = y then isTrue (by rw [h]) else isFalse (by simp [h])
  | .error x, .error y => isTrue (by cases x; cases y; rfl)
  | .ok _, .error _ => isFalse (by simp)
  | .error _, .ok _ => isFalse (by simp)

/-- Python dict assignment `m[k] = v`: replace the value at an existing
key in place, otherwise append. -/
def dictSet (m : List (List Char × List Char)) (k v : List Char) :
    List (List Char × List Char) :=
  match m with
  | [] => [(k, v)]
  | (k2, v2) :: t => if k2 = k then (k, v) :: t else (k2, v2) :: dictSet t k v

/-- Split at the first colon (Python `line.split(':', 1)`), assuming one
exists. -/
def splitFirstColon (l : List Char) : List Char × List Char :=
  match l with
  | [] => ([], [])
  | c :: t =>
    if c = ':' then ([], t)
    else
      let (a, b) := splitFirstColon t
      (c :: a, b)

/-- Split at the last colon (Python `rfind(':')` then slicing), assuming
one exists. -/
def splitLastColon (l : List Char) : List Char × List Char :=
  match l with
  | [] => ([], [])
  | c :: t =>
    if t.contains ':' then
      let (a, b) := splitLastColon t
      (c :: a, b)
    else if c = ':' then ([], t)
    else (c :: t, [])

/-- The literal `custom:` prefix. -/
def customMark : List Char := ['c', 'u', 's', 't', 'o', 'm', ':']

/-- The tokenizing part of one parser iteration (lines 57-98): strip, skip
blanks and comments, require a colon, split (rightmost colon after a
`custom:` prefix, else first colon), strip the parts and require both to
be non-empty.  Returns the stripped `(repo_path, system_path)` pair, with
`repo_path` carrying its `custom:` prefix exactly as in the source. -/
def splitFields (raw : List Char) : Option (List Char × List Char) :=
  let line := pyStrip raw
  if line.isEmpty || startsWithL ['#'] line then none
  else if !line.contains ':' then none
  else
    let parts :=
      if startsWithL customMark line then
        let rest := line.drop 7
        if !rest.contains ':' then none
        else
          let (fname, sys) := splitLastColon rest
          if (pyStrip fname).isEmpty then none
          else some (customMark ++ fname, sys)
      else
        some (splitFirstColon line)
    match parts with
    | none => none
    | some (rp, sp) =>
      let rp := pyStrip rp
      let sp := pyStrip sp
      if rp.isEmpty || sp.isEmpty then none
      else some (rp, sp)

/-- Result of one parser iteration. -/
inductive LineResult where
  | skip
  | entry (repoPath destPath : List Char)
  | overlay (customPath destPath : List Char)
  | fatal
deriving DecidableEq

/-- One parser iteration (lines 57-119): tokenize, then the safety checks.
`system_path` equal to `/` or `~` raises; a `..` substring (Python `in`)
in the checked source path or the destination raises; otherwise the entry
is recorded. -/
def parseLine (raw : List Char) : LineResult :=
  match splitFields raw with
  | none => .skip
  | some (rp, sp) =>
    if sp = ['/'] || sp = ['~'] then .fatal
    else if startsWithL customMark rp then
      let cp := pyStrip (rp.drop 7)
      if occursSub ['.', '.'] cp || occursSub ['.', '.'] sp then .fatal
      else .overlay cp sp
    else if occursSub ['.', '.'] rp || occursSub ['.', '.'] sp then .fatal
    else .entry rp sp

/-- Record one parsed entry in the configuration state (lines 111-119). -/
def applyLine (c : Config) (r : LineResult) : Config :=
  match r with
  | .skip => c
  | .fatal => c
  | .entry rp sp => ⟨c.dotfiles ++ [rp], dictSet c.file_map rp sp, c.custom_map⟩
  | .overlay cp sp => ⟨c.dotfiles, c.file_map, dictSet c.custom_map sp cp⟩

/-- Parse all lines, aborting with `Except.error` at the first fatal
safety violation (the raised `ValueError` propagates; no configuration is
returned). -/
def parseLines : List (List Char) → Config → Except Unit Config
  | [], c => .ok c
  | l :: ls, c =>
    match parseLine l with
    | .fatal => .error ()
    | r => parseLines ls (applyLine c r)

/-- `parse_config` over the file's lines. -/
def parse_config (ls : List (List Char)) : Except Unit Config :=
  parseLines ls emptyConfig

/-- The raw destination text of a line under the tokenizer, before the
empty-value check: the claim-side reading of a line's `destPath` for
lines that may still be malformed (used to state what the safety check
sees).  Mirrors lines 57-94 without the final emptiness test. -/
def rawDestPath (raw : List Char) : Option (List Char) :=
  let line := pyStrip raw
  if line.isEmpty || startsWithL ['#'] line then none
  else if !line.contains ':' then none
  else if startsWithL customMark line then
    let rest := line.drop 7
    if !rest.contains ':' then none
    else
      let (fname, sys) := splitLastColon rest
      if (pyStrip fname).isEmpty then none
      else some (pyStrip sys)
  else some (pyStrip (splitFirstColon line).2)

/-- A `..` path segment: a `..` component delimited by `/` or by the ends
of the path. -/
def hasDotDotSeg (p : List Char) : Prop :=
  ∃ s t, p = s ++ ['.', '.'] ++ t ∧
    (s = [] ∨ ∃ s2, s = s2 ++ ['/']) ∧
    (t = [] ∨ ∃ t2, t = '/' :: t2)

/-- The source path whose traversal check applies to a parsed line: the
overlay path without its `custom:` prefix for overlay entries, the repo
path itself otherwise (lines 106-116). -/
def checkedSrc (rp : List Char) : List Char :=
  if startsWithL customMark rp then pyStrip (rp.drop 7) else rp

/-! ## Template substitution commit (`process_template_file`,
config_parser.py lines 262-382)

The external `envsubst` step is abstracted as its observable outcome.
The Python code pre-creates the temporary output file, runs the shell
pipeline with a 30 second timeout, and then: nonzero exit → report and
keep the original; output file missing → report and keep the original;
otherwise it writes the temporary file's content over the original,
whatever that content is.  A timeout or any raised exception also keeps
the original.  The model returns `(succeeded, file content after the
call)`. -/

/-- The observable outcome of the external substitution step: the process
completed with an exit code and the output file's state (`none` if the
output file does not exist afterwards), or it timed out, or the
surrounding code raised. -/
inductive SubstStep where
  | completed (exitCode : Int) (output : Option String)
  | timedOut
  | crashed
deriving DecidableEq

/-- Commit decision of `process_template_file` (lines 344-382). -/
def process_template_file (original : String) (step : SubstStep) : Bool × String :=
  match step with
  | .timedOut => (false, original)
  | .crashed => (false, original)
  | .completed code output =>
    if code ≠ 0 then (false, original)
    else
      match output with
      | none => (false, original)
      | some out => (true, out)

/-! ## Sync engine (`sync_from_repo`, config_parser.py lines 721-949)

Paths and file contents are `String`s; each of the four filesystem areas
(repository, overlay directory, home, backup root) is an association
list from a path relative to that area to a file object.  Interactive
input is an explicit list of (already valid) prompt answers plus the
final confirmation answer.  `shutil.copy2` and `shutil.copytree` both
reproduce the copied object wholly, so the model copies the object; the
home-directory escape guards (lines 784-794) and `mkdir` calls touch no
destination file and are not modelled. -/

/-- A filesystem object: a readable text file, an unreadable (binary)
file on which `read_text` raises, or a directory whose whole subtree is
abstracted by a tag. -/
inductive FObj where
  | fileObj (content : String)
  | binObj (tag : String)
  | dirObj (tree : String)
deriving DecidableEq

/-- `Path.is_dir()`. -/
def FObj.isDirB : FObj → Bool
  | .dirObj _ => true
  | _ => false

/-- `Path.read_text()`: `none` when the read raises. -/
def FObj.readText : FObj → Option String
  | .fileObj c => some c
  | _ => none

/-- One filesystem area. -/
abbrev FS := List (String × FObj)

/-- Lookup (path existence and content). -/
def fsGet : FS → String → Option FObj
  | [], _ => none
  | (k, v) :: t, p => if k = p then some v else fsGet t p

/-- Write (create or overwrite). -/
def fsSet (fs : FS) (p : String) (o : FObj) : FS :=
  (p, o) :: fs

/-- The declarative configuration as the sync engine reads it:
`file_map` in insertion order, `custom_map` as a finished dict. -/
structure SyncConfig where
  file_map : List (String × String)
  custom_map : List (String × String)
deriving DecidableEq

/-- The four filesystem areas. -/
structure World where
  repo : FS
  custom : FS
  home : FS
  backup : FS
deriving DecidableEq

/-- Diagnostics and actions printed during a run. -/
inductive Event where
  | errSourceMissing (repoPath : String)
  | warnCustomMissing (destPath : String)
  | backedUp (destPath : String)
  | syncedFile (repoPath destPath : String)
deriving DecidableEq

/-- Classification of a non-identical `(source, dest)` pair. -/
inductive FStatus where
  | directoryS
  | modifiedS
  | binaryS
  | newS
deriving DecidableEq

/-- String association lookup (finished Python dict). -/
def lookupStr : List (String × String) → String → Option String
  | [], _ => none
  | (k, v) :: t, p => if k = p then some v else lookupStr t p

/-- Prefix test on strings through their character lists
(Python `str.startswith`). -/
def strStartsWith (s pre : String) : Bool :=
  startsWithL pre.toList s.toList

/-- Python `s[7:]`. -/
def strDrop7 (s : String) : String :=
  ⟨s.toList.drop 7⟩

/-- Where the chosen source lives. -/
inductive SourceRef where
  | fromRepo (repoPath : String)
  | fromCustom (customPath : String)
deriving DecidableEq

/-- Dereference a source. -/
def SourceRef.get (w : World) : SourceRef → Option FObj
  | .fromRepo rp => fsGet w.repo rp
  | .fromCustom cp => fsGet w.custom cp

/-- Overlay resolution for one entry (lines 762-775): if the destination
has an overlay whose source exists, the overlay wins and the display
path becomes `custom:` + overlay path; otherwise the repository source
is used, with a warning when an overlay was configured but missing.
Returns (chosen source, display repo path, warnings). -/
def resolveSource (cfg : SyncConfig) (w : World) (repoPath destPath : String) :
    SourceRef × String × List Event :=
  match lookupStr cfg.custom_map destPath with
  | some cp =>
    if (fsGet w.custom cp).isSome then
      (.fromCustom cp, "custom:" ++ cp, [])
    else
      (.fromRepo repoPath, repoPath, [.warnCustomMissing destPath])
  | none => (.fromRepo repoPath, repoPath, [])

/-- Classify an entry whose source and destination both exist
(lines 797-813): a directory on either side, else compare text, read
failure meaning binary; `none` stands for identical. -/
def classifyPair (src dst : FObj) : Option FStatus :=
  if src.isDirB || dst.isDirB then some .directoryS
  else
    match src.readText, dst.readText with
    | some a, some b => if a = b then none else some .modifiedS
    | _, _ => some .binaryS

/-- Analysis pass (lines 762-815): resolve each entry's source, skip and
report entries whose source is missing, and classify the rest.  Returns
(files to sync, count of identical files, events). -/
def analyzeGo (cfg : SyncConfig) (w : World) :
    List (String × String) → List (String × String × FStatus) × Nat × List Event
  | [] => ([], 0, [])
  | (rp, dp) :: rest =>
    let r := resolveSource cfg w rp dp
    let rec0 := analyzeGo cfg w rest
    match SourceRef.get w r.1 with
    | none => (rec0.1, rec0.2.1, r.2.2 ++ [.errSourceMissing r.2.1] ++ rec0.2.2)
    | some src =>
      match fsGet w.home dp with
      | some dst =>
        match classifyPair src dst with
        | none => (rec0.1, rec0.2.1 + 1, r.2.2 ++ rec0.2.2)
        | some st => ((r.2.1, dp, st) :: rec0.1, rec0.2.1, r.2.2 ++ rec0.2.2)
      | none => ((r.2.1, dp, .newS) :: rec0.1, rec0.2.1, r.2.2 ++ rec0.2.2)

/-- A valid answer to the interactive prompt (`prompt_user_choice`,
lines 691-718; the prompt re-asks on invalid input, so only valid
answers are modelled). -/
inductive Choice where
  | keep
  | replace
  | backupReplace
  | view
  | quit
deriving DecidableEq

/-- The `while True` prompt loop of lines 854-864: `view` shows the diff
again and re-prompts; the first non-view answer is returned.  An
exhausted script stands for an empty input line, whose prompt default is
`keep`. -/
def promptLoop : List Choice → Choice × List Choice
  | [] => (.keep, [])
  | .view :: rest => promptLoop rest
  | c :: rest => (c, rest)

/-- Python dict assignment for the `actions` dict. -/
def actSet (m : List (String × Choice)) (k : String) (v : Choice) :
    List (String × Choice) :=
  match m with
  | [] => [(k, v)]
  | (k2, v2) :: t => if k2 = k then (k, v) :: t else (k2, v2) :: actSet t k v

/-- `actions.get(repo_path, 'keep')`. -/
def actGet : List (String × Choice) → String → Choice
  | [], _ => .keep
  | (k, v) :: t, p => if k = p then v else actGet t p

/-- Source re-determination in the decision and apply loops
(lines 836-841 and 900-905): a `custom:` display path points into the
overlay directory, anything else into the repository. -/
def applySource (w : World) (rp : String) : Option FObj :=
  if strStartsWith rp "custom:" then fsGet w.custom (strDrop7 rp)
  else fsGet w.repo rp

/-- The interactive decision loop (lines 834-874): a modified entry under
strategy `ask` shows the diff and prompts (a read failure on either side
defaults to replace, line 865-868); any other entry takes the strategy
default.  `none` models the `return 0` triggered by a `quit` answer. -/
def decideGo (w : World) (strategy : String) :
    List Choice → List (String × Choice) → List (String × String × FStatus) →
    Option (List (String × Choice))
  | _, acts, [] => some acts
  | script, acts, (rp, dp, st) :: rest =>
    if st = .modifiedS ∧ strategy = "ask" then
      match (applySource w rp).bind FObj.readText, (fsGet w.home dp).bind FObj.readText with
      | some _, some _ =>
        let pr := promptLoop script
        if pr.1 = .quit then none
        else decideGo w strategy pr.2 (actSet acts rp pr.1) rest
      | _, _ => decideGo w strategy script (actSet acts rp .replace) rest
    else
      decideGo w strategy script
        (actSet acts rp (if strategy = "skip" then .keep else .replace)) rest

/-- Outcome of the preview phase. -/
inductive DecideResult where
  | quitAborted
  | declined
  | proceed (acts : List (String × Choice))
deriving DecidableEq

/-- The whole preview phase (lines 828-883): the decision loop, then the
final confirmation gate, which exists only under strategy `ask`
(lines 877-883). -/
def decidePhase (w : World) (strategy : String) (script : List Choice)
    (confirm : Bool) (entries : List (String × String × FStatus)) : DecideResult :=
  match decideGo w strategy script [] entries with
  | none => .quitAborted
  | some acts =>
    if strategy = "ask" then
      if confirm then .proceed acts else .declined
    else .proceed acts

/-- Non-preview action assignment (lines 885-888). -/
def forcedActions (strategy : String) (entries : List (String × String × FStatus)) :
    List (String × Choice) :=
  entries.foldl
    (fun acts e => actSet acts e.1 (if strategy = "skip" then .keep else .replace)) []

/-- Apply one decided entry (lines 893-934): `keep` skips; otherwise the
current destination is backed up when it exists and the action is
backup-replace, or is replace of a modified file outside forced mode
(lines 909-920; a directory is tree-copied and a file copied with
metadata, both reproducing the object); then the source object replaces
the destination (a directory is removed first, lines 926-931).  Returns
the new world, events, the synced pair if any, and whether the entry was
skipped. -/
def applyEntry (force : Bool) (acts : List (String × Choice)) (w : World)
    (e : String × String × FStatus) :
    World × List Event × Option (String × String) × Bool :=
  let rp := e.1
  let dp := e.2.1
  let st := e.2.2
  let a := actGet acts rp
  if a = .keep then (w, [], none, true)
  else
    let src := applySource w rp
    let backed :=
      match fsGet w.home dp with
      | some cur =>
        if a = Choice.backupReplace ∨ a = Choice.replace then
          if a = Choice.backupReplace ∨ (st = FStatus.modifiedS ∧ force = false) then
            ({ w with backup := fsSet w.backup dp cur }, [Event.backedUp dp])
          else (w, [])
        else (w, [])
      | none => (w, [])
    match src with
    | some o =>
      ({ backed.1 with home := fsSet backed.1.home dp o },
        backed.2 ++ [Event.syncedFile rp dp], some (rp, dp), false)
    | none =>
      -- unreachable in a run: analysis kept only entries whose source exists
      (backed.1, backed.2, none, false)

/-- Apply all decided entries in order. -/
def applyAll (force : Bool) (acts : List (String × Choice)) (w : World) :
    List (String × String × FStatus) → World × List Event × List (String × String)
  | [] => (w, [], [])
  | e :: rest =>
    let r := applyEntry force acts w e
    let rest2 := applyAll force acts r.1 rest
    (rest2.1, r.2.1 ++ rest2.2.1,
      (match r.2.2.1 with | some p => [p] | none => []) ++ rest2.2.2)

/-- Result of a sync run.  `templatesReported` is the count the final
summary prints (lines 946-947); it never feeds the exit code. -/
structure SyncResult where
  exitCode : Nat
  world : World
  events : List Event
  synced : List (String × String)
  templatesReported : Nat
deriving DecidableEq

/-- `sync_from_repo` (lines 721-949).  `script` and `confirm` are the
operator's prompt answers; `templatesProcessed` abstracts the return
value of `process_synced_templates` (lines 936-939), which feeds only
the final summary print — the function returns 0 on every path that
completes the apply loop, and also on the quit and declined aborts. -/
def sync_from_repo (cfg : SyncConfig) (w : World) (preview : Bool)
    (strategy : String) (force : Bool) (script : List Choice) (confirm : Bool)
    (templatesProcessed : Nat) : SyncResult :=
  let preview := if force then false else preview
  let ana := analyzeGo cfg w cfg.file_map
  let toSync := ana.1
  let evs := ana.2.2
  if toSync.isEmpty then ⟨0, w, evs, [], 0⟩
  else if preview then
    match decidePhase w strategy script confirm toSync with
    | .quitAborted => ⟨0, w, evs, [], 0⟩
    | .declined => ⟨0, w, evs, [], 0⟩
    | .proceed acts =>
      let ap := applyAll force acts w toSync
      ⟨0, ap.1, evs ++ ap.2.1, ap.2.2, templatesProcessed⟩
  else
    let acts := forcedActions strategy toSync
    let ap := applyAll force acts w toSync
    ⟨0, ap.1, evs ++ ap.2.1, ap.2.2, templatesProcessed⟩

/-! ## Concrete scenarios used by the theorems -/

/-- Mapping `HOME/testfile:.testfile` (the test-suite scenario). -/
def scenCfg : SyncConfig := ⟨[("HOME/testfile", ".testfile")], []⟩

/-- Repository holds `repo content`, the destination `system content`. -/
def scenWorld : World :=
  ⟨[("HOME/testfile", .fileObj "repo content\n")], [],
   [(".testfile", .fileObj "system content\n")], []⟩

/-- A two-entry mapping whose second source is absent from the
repository. -/
def missCfg : SyncConfig := ⟨[("HOME/file1", ".file1"), ("missing/file", ".missing")], []⟩

/-- World for `missCfg`: only the first source exists; no destinations
yet. -/
def missWorld : World := ⟨[("HOME/file1", .fileObj "content1")], [], [], []⟩

/-- A destination with both a regular entry and an overlay entry. -/
def ovlCfg : SyncConfig := ⟨[("HOME/f", ".f")], [(".f", "over/f")]⟩

/-- Overlay source present. -/
def ovlWorldPresent : World :=
  ⟨[("HOME/f", .fileObj "repo")], [("over/f", .fileObj "ovr")], [], []⟩

/-- Overlay configured but its source missing. -/
def ovlWorldMissing : World := ⟨[("HOME/f", .fileObj "repo")], [], [], []⟩

/-- The JSON-like detection example
`{"a":"${HOME}","b":"${API_KEY}"}` as characters. -/
def exJson : List Char :=
  ['{', '"', 'a', '"', ':', '"'] ++ ('$' :: '{' :: "HOME".toList ++ ['}']) ++
  ['"', ',', '"', 'b', '"', ':', '"'] ++
  ('$' :: '{' :: "API_KEY".toList ++ ['}']) ++ ['"', '}']

/-! ## Lemmas about the placeholder scanner -/

theorem takeWhile_run (p : Char → Bool) (t : List Char) (x : Char) (r : List Char)
    (ht : t.all p = true) (hx : p x = false) :
    (t ++ x :: r).takeWhile p = t ∧ (t ++ x :: r).dropWhile p = x :: r := by
  induction t with
  | nil => simp [List.takeWhile, List.dropWhile, hx]
  | cons a t ih =>
    simp only [List.all_cons, Bool.and_eq_true] at ht
    have := ih ht.2
    simp [List.takeWhile, List.dropWhile, ht.1, this.1, this.2]

theorem all_takeWhile (p : Char → Bool) (l : List Char) :
    (l.takeWhile p).all p = true := by
  induction l with
  | nil => simp
  | cons a t ih =>
    cases h : p a with
    | true => simp [List.takeWhile_cons, h, ih]
    | false => simp [List.takeWhile_cons, h]

theorem ident_all {n : List Char} (h : isIdentName n = true) : n.all identChar = true := by
  match n with
  | [] => simp [isIdentName] at h
  | c :: t =>
    simp only [isIdentName, Bool.and_eq_true] at h
    simp [List.all_cons, h.2, identChar, h.1]

theorem varPat_expand (n tail : List Char) :
    varPat n ++ tail = '$' :: '{' :: (n ++ '}' :: tail) := by
  simp [varPat, List.append_assoc]

theorem tryVar_some_of (n rest : List Char) (hn : isIdentName n = true) :
    tryVar (varPat n ++ rest) = some (n, rest) := by
  match n with
  | [] => simp [isIdentName] at hn
  | c :: t =>
    simp only [isIdentName, Bool.and_eq_true] at hn
    have hrun := takeWhile_run identChar t '}' rest hn.2 (by decide)
    rw [varPat_expand]
    simp [tryVar, hn.1, hrun.1, hrun.2]

theorem tryVar_some_inv {cs n rest : List Char} (h : tryVar cs = some (n, rest)) :
    isIdentName n = true ∧ cs = varPat n ++ rest := by
  match cs with
  | [] => simp [tryVar] at h
  | [a] => simp [tryVar] at h
  | [a, b] => simp [tryVar] at h
  | a :: b :: c :: r0 =>
    simp only [tryVar] at h
    split at h
    · rename_i hcond
      obtain ⟨ha, hb, hc, hhd⟩ := hcond
      subst ha; subst hb
      obtain ⟨d, rest2, hdw, hd⟩ :
          ∃ d rest2, r0.dropWhile identChar = d :: rest2 ∧ d = '}' := by
        cases hdw : r0.dropWhile identChar with
        | nil => rw [hdw] at hhd; simp at hhd
        | cons d rest2 =>
          rw [hdw] at hhd
          simp only [List.head?_cons, Option.some.injEq] at hhd
          exact ⟨d, rest2, rfl, hhd⟩
      subst hd
      simp only [Option.some.injEq, Prod.mk.injEq] at h
      obtain ⟨hn, hr⟩ := h
      have hsplit : r0.takeWhile identChar ++ r0.dropWhile identChar = r0 :=
        List.takeWhile_append_dropWhile identChar r0
      constructor
      · rw [← hn]
        simp [isIdentName, hc, all_takeWhile]
      · rw [varPat_expand, ← hn]
        rw [hdw] at hsplit hr
        simp only [List.tail_cons] at hr
        simp only [List.cons_append, List.cons.injEq, true_and]
        rw [← hr]
        exact hsplit.symm
    · exact absurd h (by simp)

theorem ident_rbrace_unique :
    ∀ (m n r t : List Char), m.all identChar = true → n.all identChar = true →
      m ++ '}' :: r = n ++ '}' :: t → m = n ∧ r = t := by
  intro m
  induction m with
  | nil =>
    intro n r t _ hn h
    cases n with
    | nil => simpa using h
    | cons y n2 =>
      simp only [List.nil_append, List.cons_append, List.cons.injEq] at h
      simp only [List.all_cons, Bool.and_eq_true] at hn
      rw [← h.1] at hn
      exact absurd hn.1 (by decide)
  | cons x m2 ih =>
    intro n r t hm hn h
    cases n with
    | nil =>
      simp only [List.cons_append, List.nil_append, List.cons.injEq] at h
      simp only [List.all_cons, Bool.and_eq_true] at hm
      rw [h.1] at hm
      exact absurd hm.1 (by decide)
    | cons y n2 =>
      simp only [List.cons_append, List.cons.injEq] at h
      simp only [List.all_cons, Bool.and_eq_true] at hm hn
      obtain ⟨hxy, h2⟩ := h
      obtain ⟨hmn, hrt⟩ := ih n2 r t hm.2 hn.2 h2
      exact ⟨by rw [hxy, hmn], hrt⟩

theorem ident_run_split (n : List Char) (hn : isIdentName n = true) :
    ∀ (m s2 rest t : List Char), m.all identChar = true →
      m ++ '}' :: rest = s2 ++ varPat n ++ t →
      ∃ s3, s2 = m ++ '}' :: s3 ∧ rest = s3 ++ varPat n ++ t := by
  intro m
  induction m with
  | nil =>
    intro s2 rest t _ h
    cases s2 with
    | nil =>
      have h2 : '}' :: rest = '$' :: '{' :: (n ++ '}' :: t) := by
        rw [← varPat_expand]; exact h
      exact absurd (List.head_eq_of_cons_eq h2) (by decide)
    | cons y s3 =>
      simp only [List.nil_append, List.cons_append, List.cons.injEq] at h
      refine ⟨s3, ?_, h.2⟩
      simp [← h.1]
  | cons x m2 ih =>
    intro s2 rest t hm h
    simp only [List.all_cons, Bool.and_eq_true] at hm
    cases s2 with
    | nil =>
      have h2 : x :: (m2 ++ '}' :: rest) = '$' :: '{' :: (n ++ '}' :: t) := by
        rw [← varPat_expand]; exact h
      have hx := List.head_eq_of_cons_eq h2
      rw [hx] at hm
      exact absurd hm.1 (by decide)
    | cons y s3 =>
      simp only [List.cons_append, List.cons.injEq] at h
      obtain ⟨s4, hs, hr⟩ := ih s3 rest t hm.2 h.2
      exact ⟨s4, by simp [h.1, hs], hr⟩

theorem pat_overlap {n m rest s t : List Char}
    (hn : isIdentName n = true) (hm : isIdentName m = true)
    (h : varPat m ++ rest = s ++ varPat n ++ t) :
    (s = [] ∧ n = m ∧ rest = t) ∨
      ∃ s2, s = varPat m ++ s2 ∧ rest = s2 ++ varPat n ++ t := by
  cases s with
  | nil =>
    left
    have h1 : '$' :: '{' :: (m ++ '}' :: rest) = '$' :: '{' :: (n ++ '}' :: t) := by
      rw [← varPat_expand, ← varPat_expand]; exact h
    have h2 : m ++ '}' :: rest = n ++ '}' :: t :=
      List.tail_eq_of_cons_eq (List.tail_eq_of_cons_eq h1)
    obtain ⟨hmn, hrt⟩ := ident_rbrace_unique m n rest t (ident_all hm) (ident_all hn) h2
    exact ⟨rfl, hmn.symm, hrt⟩
  | cons a s1 =>
    right
    rw [varPat_expand] at h
    have hsa : ((a :: s1) ++ varPat n) ++ t = a :: ((s1 ++ varPat n) ++ t) := by
      simp [List.cons_append]
    rw [hsa] at h
    have ha : '$' = a := List.head_eq_of_cons_eq h
    have h1 : '{' :: (m ++ '}' :: rest) = (s1 ++ varPat n) ++ t :=
      List.tail_eq_of_cons_eq h
    cases s1 with
    | nil =>
      rw [List.nil_append, varPat_expand] at h1
      exact absurd (List.head_eq_of_cons_eq h1) (by decide)
    | cons b s2 =>
      have hsb : ((b :: s2) ++ varPat n) ++ t = b :: ((s2 ++ varPat n) ++ t) := by
        simp [List.cons_append]
      rw [hsb] at h1
      have hb : '{' = b := List.head_eq_of_cons_eq h1
      have h2 : m ++ '}' :: rest = (s2 ++ varPat n) ++ t :=
        List.tail_eq_of_cons_eq h1
      obtain ⟨s3, hs, hr⟩ := ident_run_split n hn m s2 rest t (ident_all hm) h2
      refine ⟨s3, ?_, hr⟩
      rw [← ha, ← hb, hs, varPat_expand]

theorem mem_scanAux :
    ∀ (fuel : Nat) (cs n : List Char), cs.length ≤ fuel →
      (n ∈ scanAux fuel cs ↔ isIdentName n = true ∧ occursIn (varPat n) cs) := by
  intro fuel
  induction fuel with
  | zero =>
    intro cs n hlen
    have hcs : cs = [] := List.length_eq_zero.mp (Nat.le_zero.mp hlen)
    subst hcs
    simp only [scanAux, List.not_mem_nil, false_iff]
    rintro ⟨hid, s, t, habs⟩
    have := congrArg List.length habs
    simp [varPat] at this
    omega
  | succ fuel ih =>
    intro cs n hlen
    cases htv : tryVar cs with
    | some p =>
      obtain ⟨m, rest⟩ := p
      obtain ⟨hm, hcs⟩ := tryVar_some_inv htv
      have hrest : rest.length ≤ fuel := by
        have := congrArg List.length hcs
        simp [varPat] at this
        omega
      simp only [scanAux, htv, List.mem_cons]
      constructor
      · rintro (rfl | hmem)
        · exact ⟨hm, [], rest, by simpa using hcs⟩
        · obtain ⟨hid, s, t, hocc⟩ := (ih rest n hrest).mp hmem
          exact ⟨hid, varPat m ++ s, t, by simp [hcs, hocc, List.append_assoc]⟩
      · rintro ⟨hid, s, t, hocc⟩
        rw [hcs] at hocc
        rcases pat_overlap hid hm hocc with ⟨-, rfl, -⟩ | ⟨s2, -, hr⟩
        · exact Or.inl rfl
        · exact Or.inr ((ih rest n hrest).mpr ⟨hid, s2, t, hr⟩)
    | none =>
      cases cs with
      | nil =>
        simp only [scanAux, htv, List.not_mem_nil, false_iff]
        rintro ⟨hid, s, t, habs⟩
        have := congrArg List.length habs
        simp [varPat] at this
        omega
      | cons c t0 =>
        have hl : t0.length ≤ fuel := by simpa using hlen
        simp only [scanAux, htv]
        rw [ih t0 n hl]
        constructor
        · rintro ⟨hid, s, u, hocc⟩
          exact ⟨hid, c :: s, u, by simp [hocc]⟩
        · rintro ⟨hid, s, u, hocc⟩
          refine ⟨hid, ?_⟩
          cases s with
          | nil =>
            have hocc2 : c :: t0 = varPat n ++ u := hocc
            rw [hocc2, tryVar_some_of n u hid] at htv
            exact absurd htv (by simp)
          | cons a s1 =>
            simp only [List.cons_append, List.cons.injEq] at hocc
            exact ⟨s1, u, hocc.2⟩

theorem mem_scanVars (cs n : List Char) :
    n ∈ scanVars cs ↔ isIdentName n = true ∧ occursIn (varPat n) cs :=
  mem_scanAux cs.length cs n le_rfl

/-! ## Claim C7 -/

/-- C7: `detect_template_variables` returns exactly the names `N` such
that the literal text `${N}` occurs in the decoded content with `N`
matching `[A-Za-z_][A-Za-z0-9_]*`; the JSON example yields
`{HOME, API_KEY}`, `${INCOMPLETE` and `${}` yield nothing,
`${${NESTED}}` yields `{NESTED}`, and an undecodable file yields the
empty set. -/
theorem c7_detect_template_variables :
    (∀ cs n, n ∈ detect_template_variables (some cs) ↔
      (isIdentName n = true ∧ occursIn (varPat n) cs)) ∧
    detect_template_variables none = [] ∧
    scanVars exJson = ["HOME".toList, "API_KEY".toList] ∧
    scanVars ('$' :: '{' :: "INCOMPLETE".toList) = [] ∧
    scanVars ['$', '{', '}'] = [] ∧
    scanVars ('$' :: '{' :: '$' :: '{' :: "NESTED".toList ++ ['}', '}']) =
      ["NESTED".toList] :=
  ⟨fun cs n => mem_scanVars cs n, rfl, by decide, by decide, by decide, by decide⟩

/-! ## Claims C8 and C10 -/

/-- C8: an existing file is Unsafe exactly when a dangerous pattern
matches or fewer than 80 percent of its non-blank, non-comment lines are
`KEY=VALUE` / `export KEY=VALUE`; an empty file is Safe; a file whose
content is free of dangerous patterns and all of whose lines are such
assignments is Safe; `API_KEY=$(rm -rf /)` is Unsafe. -/
theorem c8_validate_env_file :
    (∀ c, validate_env_file (some c) = false ↔
      (dangerousContent c = true ∨
        (envLines c ≠ [] ∧ 5 * countValid (envLines c) < 4 * (envLines c).length))) ∧
    validate_env_file (some []) = true ∧
    (∀ c, dangerousContent c = false →
      (∀ l ∈ envLines c, lineIsKV l = true ∨ lineIsExport l = true) →
      validate_env_file (some c) = true) ∧
    validate_env_file (some "API_KEY=$(rm -rf /)".toList) = false := by
  refine ⟨fun c => ?_, by decide, fun c hd hall => ?_, by decide⟩
  · simp only [validate_env_file, validate_env_content]
    by_cases hd : dangerousContent c = true
    · simp [hd]
    · rw [Bool.not_eq_true] at hd
      simp only [hd, Bool.false_eq_true, if_false]
      by_cases hr : 5 * countValid (envLines c) < 4 * (envLines c).length
      · rw [decide_eq_true hr]
        by_cases he : (envLines c).isEmpty = true
        · have hnil : envLines c = [] := by simpa [List.isEmpty_iff] using he
          simp [he, hnil, hr]
        · have hef : (envLines c).isEmpty = false := by
            rw [Bool.not_eq_true] at he; exact he
          have hne : envLines c ≠ [] := by
            intro h
            rw [h] at hef
            simp at hef
          simp [hef, hr, hne]
      · rw [decide_eq_false hr]
        simp [hr]
  · have hcnt : countValid (envLines c) = (envLines c).length := by
      simp only [countValid]
      rw [List.countP_eq_length]
      intro l hl
      rcases hall l hl with h | h <;> simp [h]
    simp only [validate_env_file, validate_env_content, hd, Bool.false_eq_true, if_false,
      hcnt]
    have : ¬ 5 * (envLines c).length < 4 * (envLines c).length := by omega
    simp [this]

/-- C10: any single occurrence of one of the characters
`; & | backtick $ ( ) { }` anywhere in the content makes
`validate_env_file` return Unsafe, whatever the line shapes are. -/
theorem c10_metachar_rejected :
    ∀ (c : List Char) (ch : Char), ch ∈ c → injChar ch = true →
      validate_env_file (some c) = false := by
  intro c ch hmem hinj
  have hany : c.any injChar = true := List.any_eq_true.mpr ⟨ch, hmem, hinj⟩
  have hd : dangerousContent c = true := by
    simp [dangerousContent, hany]
  simp [validate_env_file, validate_env_content, hd]

/-- C10 witness: `KEY=$HOME` is a pure `KEY=VALUE` line, yet its `$` makes
the file Unsafe. -/
theorem c10_metachar_rejected_witness :
    validate_env_file (some "KEY=$HOME".toList) = false :=
  c10_metachar_rejected "KEY=$HOME".toList '$' (by decide) (by decide)

/-! ## Claim C1 -/

/-- C1: the claim says the original is replaced only on success with
non-empty output, and that empty output leaves the file untouched.  The
code (lines 353-366) checks the exit code and that the pre-created
temporary output file exists, but never that the output has content: a
successful run whose output is empty overwrites the original with the
empty string.  The other failure modes do keep the original.  Input
`${UNDEF}` with `UNDEF` unset makes `envsubst` exit 0 with empty
output. -/
theorem c1_empty_output_overwrites :
    process_template_file "$\x7bUNDEF\x7d\n" (.completed 0 (some "")) = (true, "") ∧
    ("" : String) ≠ "$\x7bUNDEF\x7d\n" ∧
    process_template_file "$\x7bUNDEF\x7d\n" (.completed 1 (some "out")) =
      (false, "$\x7bUNDEF\x7d\n") ∧
    process_template_file "$\x7bUNDEF\x7d\n" .timedOut = (false, "$\x7bUNDEF\x7d\n") ∧
    process_template_file "$\x7bUNDEF\x7d\n" .crashed = (false, "$\x7bUNDEF\x7d\n") ∧
    process_template_file "$\x7bUNDEF\x7d\n" (.completed 0 none) =
      (false, "$\x7bUNDEF\x7d\n") := by
  refine ⟨rfl, by decide, by decide, rfl, rfl, rfl⟩

/-! ## Lemmas about the mapping file parser -/

theorem startsWithL_append_self (p t : List Char) : startsWithL p (p ++ t) = true := by
  induction p with
  | nil => rfl
  | cons c cs ih => simp [startsWithL, ih]

theorem occursSub_of_startsWith {pat l : List Char} (h : startsWithL pat l = true) :
    occursSub pat l = true := by
  cases l with
  | nil => exact h
  | cons c t =>
    have : occursSub pat (c :: t) = (startsWithL pat (c :: t) || occursSub pat t) := rfl
    rw [this, h]
    simp

theorem occursSub_of_occursIn {pat l : List Char} (h : occursIn pat l) :
    occursSub pat l = true := by
  obtain ⟨s, t, rfl⟩ := h
  induction s with
  | nil => exact occursSub_of_startsWith (startsWithL_append_self pat t)
  | cons c cs ih =>
    have : occursSub pat ((c :: cs) ++ pat ++ t) =
        (startsWithL pat ((c :: cs) ++ pat ++ t) || occursSub pat (cs ++ pat ++ t)) := rfl
    rw [this, ih]
    simp

theorem occursSub_dotdot_of_seg {p : List Char} (h : hasDotDotSeg p) :
    occursSub ['.', '.'] p = true := by
  obtain ⟨s, t, rfl, -, -⟩ := h
  exact occursSub_of_occursIn ⟨s, t, rfl⟩

theorem parseLine_fatal_of {raw rp sp : List Char}
    (h : splitFields raw = some (rp, sp))
    (hd : sp = ['/'] ∨ sp = ['~'] ∨ hasDotDotSeg (checkedSrc rp) ∨ hasDotDotSeg sp) :
    parseLine raw = .fatal := by
  have hsp : ∀ q, hasDotDotSeg q → occursSub ['.', '.'] q = true :=
    fun q => occursSub_dotdot_of_seg
  simp only [parseLine, h]
  by_cases h1 : sp = ['/'] ∨ sp = ['~']
  · have : (decide (sp = ['/']) || decide (sp = ['~'])) = true := by
      rcases h1 with h1 | h1 <;> simp [h1]
    simp [this]
  · have hns : ¬ sp = ['/'] := fun hq => h1 (Or.inl hq)
    have hnt : ¬ sp = ['~'] := fun hq => h1 (Or.inr hq)
    rcases hd with hq | hq | hq | hq
    · exact absurd hq hns
    · exact absurd hq hnt
    · simp only [hns, hnt, decide_eq_false, Bool.or_false, Bool.false_eq_true, if_false]
      by_cases hcp : startsWithL customMark rp = true
      · have : checkedSrc rp = pyStrip (rp.drop 7) := by simp [checkedSrc, hcp]
        rw [this] at hq
        simp [hcp, hsp _ hq]
      · have hcf : startsWithL customMark rp = false := by
          rw [Bool.not_eq_true] at hcp; exact hcp
        have : checkedSrc rp = rp := by simp [checkedSrc, hcf]
        rw [this] at hq
        simp [hcf, hsp _ hq]
    · simp only [hns, hnt, decide_eq_false, Bool.or_false, Bool.false_eq_true, if_false]
      by_cases hcp : startsWithL customMark rp = true
      · simp [hcp, hsp _ hq]
      · have hcf : startsWithL customMark rp = false := by
          rw [Bool.not_eq_true] at hcp; exact hcp
        simp [hcf, hsp _ hq]

theorem parseLines_error_of :
    ∀ (ls : List (List Char)) (c : Config),
      (∃ raw ∈ ls, parseLine raw = .fatal) → parseLines ls c = .error () := by
  intro ls
  induction ls with
  | nil =>
    intro c h
    obtain ⟨raw, hmem, -⟩ := h
    exact absurd hmem (List.not_mem_nil raw)
  | cons l ls ih =>
    intro c h
    obtain ⟨raw, hmem, hfat⟩ := h
    rcases List.mem_cons.mp hmem with rfl | hmem2
    · simp [parseLines, hfat]
    · cases hpl : parseLine l with
      | fatal => simp [parseLines, hpl]
      | skip => simpa [parseLines, hpl] using ih _ ⟨raw, hmem2, hfat⟩
      | entry a b => simpa [parseLines, hpl] using ih _ ⟨raw, hmem2, hfat⟩
      | overlay a b => simpa [parseLines, hpl] using ih _ ⟨raw, hmem2, hfat⟩

/-! ## Claim C3 -/

/-- C3 counterexample: the file consisting of the single line `:/` has a
line whose destination text is `/` (the tokenizer yields `/` as the
destination), yet parsing raises no error at all — the empty repo path
makes the line a warned-and-skipped malformed line (lines 96-98 run
before the safety check of line 101) — and an (empty) configuration is
returned. -/
theorem c3_slash_dest_counterexample :
    rawDestPath [':', '/'] = some ['/'] ∧
    parse_config [[':', '/']] = .ok emptyConfig := by
  constructor
  · decide
  · decide

/-- C3 (amended): for every mapping file containing a line that survives
the tokenizer (non-blank, non-comment, has a colon, non-empty stripped
repo and destination parts, non-empty custom name) whose destination is
`/` or `~`, or whose checked source path or destination has a `..`
segment, parsing aborts with the fatal safety error, and no
configuration at all is returned. -/
theorem c3_safety_aborts_parsing :
    ∀ lines : List (List Char),
      (∃ raw ∈ lines, ∃ rp sp, splitFields raw = some (rp, sp) ∧
        (sp = ['/'] ∨ sp = ['~'] ∨ hasDotDotSeg (checkedSrc rp) ∨ hasDotDotSeg sp)) →
      parse_config lines = .error () := by
  intro lines h
  obtain ⟨raw, hmem, rp, sp, hsf, hdanger⟩ := h
  exact parseLines_error_of lines emptyConfig
    ⟨raw, hmem, parseLine_fatal_of hsf hdanger⟩

/-- C3 witness: the well-formed line `a:/` aborts parsing. -/
theorem c3_safety_aborts_parsing_witness :
    parse_config [['a', ':', '/']] = .error () :=
  c3_safety_aborts_parsing [['a', ':', '/']]
    ⟨['a', ':', '/'], by simp, ['a'], ['/'], by decide, Or.inl rfl⟩

/-! ## Lemmas about the sync engine -/

theorem fsGet_fsSet_self (fs : FS) (p : String) (o : FObj) :
    fsGet (fsSet fs p o) p = some o := by
  simp [fsGet, fsSet]

/-! ## Claim C2 -/

/-- C2: the claim (and the repository's own tests) say a run with a
missing source exits 1, but `sync_from_repo` only prints the error,
skips the entry (lines 780-782) and returns 0 at line 949; the template
count is never consulted for the exit code either.  On the two-entry
configuration whose second source is missing, a forced run reports the
missing source, syncs the other file, and still exits 0, whatever the
template pipeline reported. -/
theorem c2_missing_source_still_exit_zero :
    ∀ t : Nat,
      (sync_from_repo missCfg missWorld true "ask" true [] true t).exitCode = 0 ∧
      (sync_from_repo missCfg missWorld true "ask" true [] true t).events =
        [Event.errSourceMissing "missing/file",
         Event.syncedFile "HOME/file1" ".file1"] ∧
      fsGet (sync_from_repo missCfg missWorld true "ask" true [] true t).world.home
        ".file1" = some (.fileObj "content1") ∧
      (sync_from_repo missCfg missWorld true "ask" true [] true t).templatesReported = t :=
  fun t => ⟨rfl, rfl, rfl, rfl⟩

/-! ## Claim C4 -/

/-- C4 counterexample: in the scenario (repo `repo content`, destination
`system content`, hence Modified), the forced replace does write the
repository content, but creates no backup at all: line 910 only backs up
a replace of a modified file when `force` is false, so the claimed
backup `.testfile` with `system content` does not exist. -/
theorem c4_forced_replace_counterexample :
    fsGet (sync_from_repo scenCfg scenWorld true "ask" true [] true 0).world.home
      ".testfile" = some (.fileObj "repo content\n") ∧
    fsGet (sync_from_repo scenCfg scenWorld true "ask" true [] true 0).world.backup
      ".testfile" = none := ⟨rfl, rfl⟩

/-- C4 (amended): in the scenario, a forced replace makes the
destination `repo content` but creates no backup; the backup equal to
`system content` at relative path `.testfile` is created when the
Modified file is replaced without the force flag (here with
strategy `replace`), together with the same destination content. -/
theorem c4_modified_replace_backup :
    (fsGet (sync_from_repo scenCfg scenWorld true "ask" true [] true 0).world.home
      ".testfile" = some (.fileObj "repo content\n") ∧
     fsGet (sync_from_repo scenCfg scenWorld true "ask" true [] true 0).world.backup
      ".testfile" = none) ∧
    (fsGet (sync_from_repo scenCfg scenWorld true "replace" false [] true 0).world.home
      ".testfile" = some (.fileObj "repo content\n") ∧
     fsGet (sync_from_repo scenCfg scenWorld true "replace" false [] true 0).world.backup
      ".testfile" = some (.fileObj "system content\n")) :=
  ⟨⟨rfl, rfl⟩, ⟨rfl, rfl⟩⟩

/-! ## Claim C5 -/

/-- C5: in the apply step, the current destination is copied into the
backup root exactly when the destination exists and either the decided
action is backup-replace, or it is replace of a previously Modified file
outside forced mode; when this holds the backed-up object equals the
current destination object (directories and files are copied wholesale),
and otherwise the backup area is untouched. -/
theorem c5_backup_exactly_when :
    ∀ (force : Bool) (acts : List (String × Choice)) (w : World) (rp dp : String)
      (st : FStatus),
      (Event.backedUp dp ∈ (applyEntry force acts w (rp, dp, st)).2.1 ↔
        ((fsGet w.home dp).isSome = true ∧
          (actGet acts rp = Choice.backupReplace ∨
            (actGet acts rp = Choice.replace ∧ st = FStatus.modifiedS ∧ force = false)))) ∧
      (((fsGet w.home dp).isSome = true ∧
          (actGet acts rp = Choice.backupReplace ∨
            (actGet acts rp = Choice.replace ∧ st = FStatus.modifiedS ∧ force = false))) →
        fsGet (applyEntry force acts w (rp, dp, st)).1.backup dp = fsGet w.home dp) ∧
      (¬ ((fsGet w.home dp).isSome = true ∧
          (actGet acts rp = Choice.backupReplace ∨
            (actGet acts rp = Choice.replace ∧ st = FStatus.modifiedS ∧ force = false))) →
        (applyEntry force acts w (rp, dp, st)).1.backup = w.backup) := by
  intro force acts w rp dp st
  cases haa : actGet acts rp <;> cases hh : fsGet w.home dp <;>
    by_cases hmf : st = FStatus.modifiedS ∧ force = false <;>
      simp [applyEntry, haa, hh, hmf, fsGet_fsSet_self] <;>
      cases hsrc : applySource w rp <;> simp [hsrc, fsGet_fsSet_self]

/-! ## Claim C6 -/

/-- C6: for a destination having both an overlay entry and a regular
entry, the overlay source is chosen when it exists on disk; otherwise
the regular source is chosen and a warning is emitted.  One single
source reference is produced either way. -/
theorem c6_overlay_precedence :
    ∀ (cfg : SyncConfig) (w : World) (rp dp cp : String),
      (rp, dp) ∈ cfg.file_map →
      lookupStr cfg.custom_map dp = some cp →
      (((fsGet w.custom cp).isSome = true →
        resolveSource cfg w rp dp = (.fromCustom cp, "custom:" ++ cp, [])) ∧
       (fsGet w.custom cp = none →
        resolveSource cfg w rp dp =
          (.fromRepo rp, rp, [Event.warnCustomMissing dp]))) := by
  intro cfg w rp dp cp _hmem hlk
  constructor
  · intro h
    simp [resolveSource, hlk, h]
  · intro h
    simp [resolveSource, hlk, h]

/-- C6 witness: with the overlay source present it is chosen; with it
missing the regular source is chosen and the warning appears. -/
theorem c6_overlay_precedence_witness :
    resolveSource ovlCfg ovlWorldPresent "HOME/f" ".f" =
      (.fromCustom "over/f", "custom:over/f", []) ∧
    resolveSource ovlCfg ovlWorldMissing "HOME/f" ".f" =
      (.fromRepo "HOME/f", "HOME/f", [Event.warnCustomMissing ".f"]) :=
  ⟨(c6_overlay_precedence ovlCfg ovlWorldPresent "HOME/f" ".f" "over/f"
      (by decide) (by decide)).1 (by decide),
   (c6_overlay_precedence ovlCfg ovlWorldMissing "HOME/f" ".f" "over/f"
      (by decide) (by decide)).2 (by decide)⟩

/-! ## Claim C9 -/

/-- C9: in interactive mode (preview, not forced), answering Quit at the
diff-review prompt or declining the final confirmation aborts the run
before the apply loop: the whole filesystem state (all four areas,
including every destination file and the backup root) is returned
unchanged and the exit code is 0. -/
theorem c9_quit_or_decline_no_mutation :
    ∀ (cfg : SyncConfig) (w : World) (strategy : String) (script : List Choice)
      (confirm : Bool) (t : Nat),
      (decidePhase w strategy script confirm (analyzeGo cfg w cfg.file_map).1 =
          DecideResult.quitAborted ∨
        decidePhase w strategy script confirm (analyzeGo cfg w cfg.file_map).1 =
          DecideResult.declined) →
      (sync_from_repo cfg w true strategy false script confirm t).world = w ∧
      (sync_from_repo cfg w true strategy false script confirm t).exitCode = 0 := by
  intro cfg w strategy script confirm t h
  by_cases he : ((analyzeGo cfg w cfg.file_map).1).isEmpty = true
  · constructor <;> simp [sync_from_repo, he]
  · have hef : ((analyzeGo cfg w cfg.file_map).1).isEmpty = false := by
      rw [Bool.not_eq_true] at he; exact he
    rcases h with h | h <;> constructor <;> simp [sync_from_repo, hef, h]

/-- C9 witness: quitting at the first diff prompt of the modified-file
scenario leaves the world untouched. -/
theorem c9_quit_no_mutation_witness :
    (sync_from_repo scenCfg scenWorld true "ask" false [Choice.quit] true 0).world =
      scenWorld ∧
    (sync_from_repo scenCfg scenWorld true "ask" false [Choice.quit] true 0).exitCode
      = 0 :=
  c9_quit_or_decline_no_mutation scenCfg scenWorld "ask" [Choice.quit] true 0
    (Or.inl (by decide))

end DotSync
